import Mathlib

/-!
Verification development for the pdf-accessibility-linker pipeline.

Python strings are modelled as `List Char` (`PyStr`), Python ints as `Int`
(arbitrary precision, as in Python), and float-valued scores / coordinates as
`ℚ` with exact arithmetic.  Fallible code (raising `ValueError` / `IndexError`)
is modelled with `Except` / `Option`.  Each definition mirrors one Python
function of the repository; the source file and symbol are named in its
doc comment.
-/

set_option maxHeartbeats 1000000
set_option linter.unusedVariables false

/-- Python strings modelled as lists of characters. -/
abbrev PyStr := List Char

/-- ASCII lower-casing of one character, as `str.lower` acts on ASCII. -/
def pyLowerChar (c : Char) : Char :=
  if 'A' ≤ c ∧ c ≤ 'Z' then Char.ofNat (c.toNat + 32) else c

/-- `str.lower()` on the ASCII fragment used by the pipeline. -/
def pyToLower (s : PyStr) : PyStr := s.map pyLowerChar

/-- Whitespace characters recognised by `str.strip()` (ASCII fragment). -/
def isPyWs (c : Char) : Bool :=
  c = ' ' ∨ c = '\t' ∨ c = '\n' ∨ c = '\x0d' ∨ c = '\x0b' ∨ c = '\x0c'

/-- `str.strip()`: drop whitespace from both ends. -/
def pyStrip (s : PyStr) : PyStr :=
  ((s.dropWhile isPyWs).reverse.dropWhile isPyWs).reverse

/-- `str.split(sep)` for a one-character separator, Python semantics:
splitting the empty string yields `[""]`. -/
def splitCh (sep : Char) : PyStr → List PyStr
  | [] => [[]]
  | c :: rest =>
    match splitCh sep rest with
    | [] => [[]]
    | g :: gs => if c = sep then [] :: g :: gs else (c :: g) :: gs

/-- The decimal digit character for `d < 10`. -/
def digitChar (d : Nat) : Char := Char.ofNat (48 + d)

/-- Decimal representation of a natural number, as produced by Python
string formatting. -/
def natDigits (n : Nat) : List Char :=
  if h : n < 10 then [digitChar n]
  else natDigits (n / 10) ++ [digitChar (n % 10)]
termination_by n
decreasing_by exact Nat.div_lt_self (by omega) (by omega)

/-- Python `f"{val}"` for an int: optional minus sign then decimal digits. -/
def intRepr (i : Int) : PyStr :=
  if i < 0 then '-' :: natDigits i.natAbs else natDigits i.natAbs

/-- The numeric value of a decimal digit character, if it is one. -/
def charDigit? (c : Char) : Option Nat :=
  if '0' ≤ c ∧ c ≤ '9' then some (c.toNat - 48) else none

/-- One digit-accumulation step (`acc * 10 + digit`). -/
def digitStep (a : Nat) (c : Char) : Nat := a * 10 + ((charDigit? c).getD 0)

/-- Digit accumulation for Python `int()`: digits possibly separated by
single underscores (Python allows `1_000`); an underscore must be followed
by a digit. -/
def pyNatUndAux (acc : Nat) : PyStr → Option Nat
  | [] => some acc
  | c :: rest =>
    if c = '_' then
      match rest with
      | [] => none
      | c2 :: rest2 =>
        match charDigit? c2 with
        | some d => pyNatUndAux (acc * 10 + d) rest2
        | none => none
    else
      match charDigit? c with
      | some d => pyNatUndAux (acc * 10 + d) rest
      | none => none

/-- The digit part of Python `int()`: non-empty, starts with a digit. -/
def pyNatUnd : PyStr → Option Nat
  | [] => none
  | c :: rest =>
    match charDigit? c with
    | some d => pyNatUndAux d rest
    | none => none

/-- Python `int(str)` on the ASCII fragment: surrounding whitespace is
stripped, an optional sign precedes the digits. -/
def pyInt? (s : PyStr) : Option Int :=
  let t := pyStrip s
  match t with
  | [] => none
  | c :: rest =>
    if c = '+' then (pyNatUnd rest).map Int.ofNat
    else if c = '-' then (pyNatUnd rest).map (fun n => -(n : Int))
    else (pyNatUnd t).map Int.ofNat

/-- src/utils/canonical.py, `CanonicalURN.generate_page_urn`:
`f"page:{numbering_type.lower()}:{val}"`. -/
def generate_page_urn (val : Int) (numbering_type : PyStr) : PyStr :=
  "page:".toList ++ pyToLower numbering_type ++ ':' :: intRepr val

/-- src/utils/canonical.py, `CanonicalURN.generate_structural_urn`:
`f"{namespace.lower()}:{counter:02d}"` (zero-padded to width 2). -/
def generate_structural_urn (ns : PyStr) (counter : Int) : PyStr :=
  pyToLower ns ++ ':' ::
    (if 0 ≤ counter ∧ counter < 10 then '0' :: intRepr counter else intRepr counter)

/-- src/utils/canonical.py, `CanonicalURN.parse_page_urn`.
`.ok none` models the `(None, None)` return for non-page URNs, `.error`
models the raised `ValueError`. -/
def parse_page_urn (urn : PyStr) : Except PyStr (Option (PyStr × Int)) :=
  if ("page:".toList).isPrefixOf urn then
    let parts := splitCh ':' urn
    if parts.length ≠ 3 then .error ("MALFORMED_URN: expected 3 parts".toList)
    else
      match pyInt? (parts.getD 2 []) with
      | some v => .ok (some (parts.getD 1 [], v))
      | none => .error ("MALFORMED_URN: non-integer page value".toList)
  else .ok none

/-- Character class `[a-z0-9_.-]` of the anchor regex in
src/data_models/schemas.py. -/
def isLowerNsChar (c : Char) : Bool :=
  (decide ('a' ≤ c) && decide (c ≤ 'z')) || (decide ('0' ≤ c) && decide (c ≤ '9')) ||
    c == '_' || c == '.' || c == '-'

/-- Character class `[A-Za-z0-9_.-]` of the anchor regex in
src/data_models/schemas.py. -/
def isTokenChar (c : Char) : Bool :=
  (decide ('A' ≤ c) && decide (c ≤ 'Z')) || (decide ('a' ≤ c) && decide (c ≤ 'z')) ||
    (decide ('0' ≤ c) && decide (c ≤ '9')) || c == '_' || c == '.' || c == '-'

/-- Remove an expected leading segment from a string, or fail. -/
def dropPre : PyStr → PyStr → Option PyStr
  | [], s => some s
  | _ :: _, [] => none
  | p :: ps, c :: cs => if p = c then dropPre ps cs else none

/-- The regex fragment `[1-9]\d*` (a positive integer without leading
zeros). -/
def isPosIntToken : PyStr → Bool
  | [] => false
  | c :: rest =>
    (decide ('1' ≤ c) && decide (c ≤ '9')) &&
      rest.all (fun d => decide ('0' ≤ d) && decide (d ≤ '9'))

/-- First alternative of `_ANCHOR_PATTERNS` in src/data_models/schemas.py:
`page:(arabic|roman):[1-9]\d*`, anchored on the whole string. -/
def pageAnchor (s : PyStr) : Bool :=
  match dropPre ("page:".toList) s with
  | none => false
  | some r =>
    match dropPre ("arabic:".toList) r with
    | some ds => isPosIntToken ds
    | none =>
      match dropPre ("roman:".toList) r with
      | some ds => isPosIntToken ds
      | none => false

/-- Second alternative of `_ANCHOR_PATTERNS`: `[a-z0-9_.-]+:[A-Za-z0-9_.-]+`.
Neither character class contains a colon, so the regex matches exactly when
the string splits at its first colon into two non-empty class-conforming
halves. -/
def nsAnchor (s : PyStr) : Bool :=
  let a := s.takeWhile (fun c => !(c == ':'))
  let b := s.dropWhile (fun c => !(c == ':'))
  match b with
  | ':' :: bs => !a.isEmpty && a.all isLowerNsChar && !bs.isEmpty && bs.all isTokenChar
  | _ => false

/-- `_ANCHOR_PATTERNS.match` of src/data_models/schemas.py (anchored by
`^...$`): the union of the two alternatives. -/
def anchorMatch (s : PyStr) : Bool := pageAnchor s || nsAnchor s

/-- src/data_models/schemas.py, dataclass `TargetNode`.  `target_type` stays
a string as at Python runtime (the `Literal` annotation is unchecked). -/
structure TargetNode where
  target_id : PyStr
  target_type : PyStr
  exact_name : PyStr
  page_number : Int
  confidence : ℚ
deriving DecidableEq, Repr

/-- src/data_models/schemas.py, dataclass `SemanticReference`. -/
structure SemanticReference where
  source_page : Int
  short_anchor : PyStr
  context_sentence : PyStr
  source_bbox : ℚ × ℚ × ℚ × ℚ
  inquiry_subject : Option PyStr
  resolved_target : Option TargetNode
  resolution_score : ℚ
deriving DecidableEq, Repr

/-- `SemanticReference.__post_init__`: construction raises on a non-positive
source page, an anchor failing `_ANCHOR_PATTERNS`, an empty/whitespace
context sentence, or a degenerate bounding box. -/
def mkSemanticReference (source_page : Int) (short_anchor : PyStr)
    (context_sentence : PyStr) (source_bbox : ℚ × ℚ × ℚ × ℚ)
    (inquiry_subject : Option PyStr) (resolved_target : Option TargetNode)
    (resolution_score : ℚ) : Except PyStr SemanticReference :=
  if source_page < 1 then .error ("Invalid physical source_page".toList)
  else if !(anchorMatch short_anchor) then
    .error ("Malformed or unsupported short_anchor URN".toList)
  else if (pyStrip context_sentence).isEmpty then
    .error ("Empty context_sentence".toList)
  else
    let x0 := source_bbox.1
    let y0 := source_bbox.2.1
    let x1 := source_bbox.2.2.1
    let y1 := source_bbox.2.2.2
    if x0 ≥ x1 ∨ y0 ≥ y1 then
      .error ("Degenerate or inverted bounding box coordinates".toList)
    else .ok ⟨source_page, short_anchor, context_sentence, source_bbox,
              inquiry_subject, resolved_target, resolution_score⟩

/-- A page-map record as written by the profiler and read back by the
resolver (src/core/profiler.py segment dictionaries). -/
structure Segment where
  physical_start : Int
  physical_end : Int
  printed_start : Int
  printed_end : Int
  numbering : PyStr
  spacers : List Int
deriving DecidableEq, Repr

/-- The per-segment test of `EnterpriseResolver._resolve_printed_to_physical`
(src/core/resolver.py lines 31-41): numbering type equality and the
inclusive printed-range bounds. -/
def segMatches (seg : Segment) (requested_logical : Int) (numbering_type : PyStr) : Bool :=
  seg.numbering == numbering_type &&
    decide (seg.printed_start ≤ requested_logical) &&
    decide (requested_logical ≤ seg.printed_end)

/-- src/core/resolver.py, `EnterpriseResolver._resolve_printed_to_physical`:
first-match scan of the page map, returning
`physical_start + (requested_logical - printed_start)`, or `none` when the
scan is exhausted. -/
def _resolve_printed_to_physical (page_map : List Segment) (requested_logical : Int)
    (numbering_type : PyStr) : Option Int :=
  match page_map with
  | [] => none
  | seg :: rest =>
    if segMatches seg requested_logical numbering_type then
      some (seg.physical_start + (requested_logical - seg.printed_start))
    else _resolve_printed_to_physical rest requested_logical numbering_type

/-- The shared Roman digit map (`roman_map` in src/core/miner.py line 81 and
the identical `ROMAN_MAP` in src/core/profiler.py line 19); unknown
characters map to 0 via `dict.get(ch, 0)`. -/
def romanCharVal (c : Char) : Int :=
  if c = 'i' then 1 else if c = 'v' then 5 else if c = 'x' then 10
  else if c = 'l' then 50 else if c = 'c' then 100 else if c = 'd' then 500
  else if c = 'm' then 1000 else 0

/-- The right-to-left subtractive accumulation loop shared by both Roman
converters: state is `(total, prev)`. -/
def romanFold (s : PyStr) : Int × Int :=
  s.reverse.foldl
    (fun st ch =>
      let v := romanCharVal ch
      (st.1 + (if v < st.2 then -v else v), v))
    ((0 : Int), (0 : Int))

/-- src/core/miner.py, `EnterpriseMiner._roman_to_int`: the bare
accumulation loop, no normalisation of the input. -/
def minerRomanToInt (s : PyStr) : Int := (romanFold s).1

/-- src/core/profiler.py, module-level `roman_to_int`: identical loop, but
the input is first normalised by `s.lower().strip()`. -/
def roman_to_int (s : PyStr) : Int := (romanFold (pyStrip (pyToLower s))).1

/-- Repetition `c{n}` as an explicit string. -/
def repChar (c : Char) (n : Nat) : PyStr := List.replicate n c

/-- Alternatives of the regex group `m{0,4}`. -/
def romanThous : List PyStr := (List.range 5).map (repChar 'm')

/-- Alternatives of the regex group `(cm|cd|d?c{0,3})`. -/
def romanHund : List PyStr :=
  (["cm", "cd", "", "c", "cc", "ccc", "d", "dc", "dcc", "dccc"]).map String.toList

/-- Alternatives of the regex group `(xc|xl|l?x{0,3})`. -/
def romanTens : List PyStr :=
  (["xc", "xl", "", "x", "xx", "xxx", "l", "lx", "lxx", "lxxx"]).map String.toList

/-- Alternatives of the regex group `(ix|iv|v?i{0,3})`. -/
def romanUnits : List PyStr :=
  (["ix", "iv", "", "i", "ii", "iii", "v", "vi", "vii", "viii"]).map String.toList

/-- The strict Roman grammar
`^m{0,4}(cm|cd|d?c{0,3})(xc|xl|l?x{0,3})(ix|iv|v?i{0,3})$` (compiled in
src/core/miner.py line 20 and src/core/profiler.py line 18) on a lower-case
input: the anchored regex accepts exactly the concatenations of one
alternative from each group. -/
def romanValid (s : PyStr) : Bool :=
  romanThous.any fun t =>
    match dropPre t s with
    | none => false
    | some r1 =>
      romanHund.any fun h =>
        match dropPre h r1 with
        | none => false
        | some r2 =>
          romanTens.any fun te =>
            match dropPre te r2 with
            | none => false
            | some r3 => romanUnits.any fun u => r3 == u

/-- Python `str.isdigit()` on the ASCII fragment: non-empty and all decimal
digits. -/
def pyIsDigit (s : PyStr) : Bool :=
  !s.isEmpty && s.all (fun c => decide ('0' ≤ c) && decide (c ≤ '9'))

/-- `EnterpriseMiner.AMBIGUOUS_ROMAN_CHARS` membership test: the Python
`token in frozenset({...})` compares the whole token against the
single-character strings. -/
def isAmbiguousRoman (token : PyStr) : Bool :=
  token == ['c'] || token == ['d'] || token == ['l'] || token == ['m']

/-- The mining context of `EnterpriseMiner.mine_page_references`: the
0-indexed page, the sentence text and box, and the external
`page_object.search_for` collaborator (already clipped to the sentence box)
as an oracle function. -/
structure MineCtx where
  page0 : Int
  sentText : PyStr
  sentBbox : ℚ × ℚ × ℚ × ℚ
  searchHits : PyStr → List (ℚ × ℚ × ℚ × ℚ)

/-- src/core/miner.py, `EnterpriseMiner._get_match_bbox`: first search hit,
falling back to the context box. -/
def getMatchBbox (ctx : MineCtx) (match_text : PyStr) : ℚ × ℚ × ℚ × ℚ :=
  match ctx.searchHits match_text with
  | r :: _ => r
  | [] => ctx.sentBbox

/-- The body of the `for match in ...finditer` loop of
`EnterpriseMiner.mine_page_references` (src/core/miner.py lines 46-76),
given the regex match's group(0) and group(1).  `.ok none` models
`continue`; `.error` models a `ValueError` escaping from the
`SemanticReference` constructor. -/
def processMatch (ctx : MineCtx) (group0 group1 : PyStr) :
    Except PyStr (Option SemanticReference) :=
  let token := pyToLower group1
  let is_roman := !(pyIsDigit token)
  if is_roman && ((token.length == 1 && isAmbiguousRoman token) || !(romanValid token)) then
    .ok none
  else
    let val : Int := if is_roman then minerRomanToInt token else (pyInt? token).getD 0
    if val ≤ 0 then .ok none
    else
      let num_type : PyStr := if is_roman then "roman".toList else "arabic".toList
      let urn := generate_page_urn val num_type
      let bbox := getMatchBbox ctx group0
      (mkSemanticReference (ctx.page0 + 1) urn (pyStrip ctx.sentText) bbox
        none none 0).map some

/-- src/core/miner.py, `EnterpriseMiner.mine_page_references`: the matches
found by `page_pattern.finditer` are supplied as the list of
`(group(0), group(1))` pairs; the leading `assert page_num_0indexed >= 0`
is modelled as an error. -/
def mine_page_references (ctx : MineCtx) (mlist : List (PyStr × PyStr)) :
    Except PyStr (List SemanticReference) :=
  if ctx.page0 < 0 then .error ("page_num_0indexed must be nonnegative".toList)
  else go mlist
where
  go : List (PyStr × PyStr) → Except PyStr (List SemanticReference)
    | [] => .ok []
    | (g0, g1) :: ms =>
      match processMatch ctx g0 g1 with
      | .error e => .error e
      | .ok none => go ms
      | .ok (some r) => (go ms).map (fun rs => r :: rs)

/-- src/core/annotator.py, `EnterpriseAnnotator.annotate` (lines 37-83):
the loop over resolved references.  `.ok n` models a successful
`doc.save(...)` after inserting `n` links (`applied_count`); `.error`
models the raised `IndexError`, after which no output file is written. -/
def annotate (min_confidence : ℚ) (total_pages : Int) :
    List SemanticReference → Except PyStr Nat
  | [] => .ok 0
  | ref :: rest =>
    match ref.resolved_target with
    | none => annotate min_confidence total_pages rest
    | some t =>
      if ref.resolution_score < min_confidence then
        annotate min_confidence total_pages rest
      else
        let source_page_idx := ref.source_page - 1
        let target_page_idx := t.page_number - 1
        if ¬ (0 ≤ source_page_idx ∧ source_page_idx < total_pages) then
          .error ("Source page is out of document bounds".toList)
        else if ¬ (0 ≤ target_page_idx ∧ target_page_idx < total_pages) then
          .error ("Target page is out of document bounds".toList)
        else (annotate min_confidence total_pages rest).map (· + 1)

/-- A topology candidate of src/core/profiler.py (`topo_candidates` entries)
restricted to the fields read by stream selection and segment stitching:
physical page `p` (1-indexed), printed value `val`, horizontal position `x`,
and the numbering type `ntype` (the `'type'` key). -/
structure TopoCand where
  p : Int
  val : Int
  x : ℚ
  ntype : PyStr
deriving DecidableEq, Repr, Inhabited

/-- Stable insertion of one element: keeps existing elements that compare
weakly before `a` in front of it, so the overall sort is stable like
Python `list.sort`. -/
def insertStable (le : α → α → Bool) (a : α) : List α → List α
  | [] => [a]
  | b :: bs => if le b a then b :: insertStable le a bs else a :: b :: bs

/-- Stable sort (insertion sort), matching Python `list.sort` on the same
total preorder. -/
def stableSortBy (le : α → α → Bool) (l : List α) : List α :=
  l.foldl (fun acc a => insertStable le a acc) []

/-- The sort key `lambda x: (x['p'], x['x'])` of profiler.py line 675. -/
def candLe (u v : TopoCand) : Bool :=
  decide (u.p < v.p) || (u.p == v.p && decide (u.x ≤ v.x))

/-- The inner `for j in range(i)` relaxation of the O(n^2) DAG longest-path
dynamic program (profiler.py lines 680-693), acting on the pair
`(dp_lengths, dp_prev)`. -/
def dpStep (arr : Array TopoCand) (acc : Array Nat × Array Int) (i : Nat) :
    Array Nat × Array Int :=
  (List.range i).foldl
    (fun acc2 j =>
      let u := arr.getD j default
      let v := arr.getD i default
      let dp_gap := v.p - u.p
      let dv_gap := v.val - u.val
      if 0 < dp_gap ∧ 0 < dv_gap ∧ (dp_gap - dv_gap).natAbs ≤ 20 then
        if acc2.1.getD j 0 + 1 > acc2.1.getD i 0 then
          (acc2.1.set! i (acc2.1.getD j 0 + 1), acc2.2.set! i (Int.ofNat j))
        else acc2
      else acc2)
    acc

/-- The full dynamic program: `dp_lengths = [1]*n`, `dp_prev = [-1]*n`,
then relaxation for `i` in `1..n-1`. -/
def dpArrays (arr : Array TopoCand) : Array Nat × Array Int :=
  (List.range arr.size).foldl
    (fun acc i => if i = 0 then acc else dpStep arr acc i)
    (Array.mkArray arr.size 1, Array.mkArray arr.size (-1))

/-- `dp_lengths.index(max(dp_lengths))`: index of the first maximal entry. -/
def firstMaxIdx (a : Array Nat) : Nat :=
  let m := a.foldl Nat.max 0
  (a.toList.indexOf m)

/-- Backtracking `while curr != -1` through `dp_prev` (profiler.py lines
697-700).  `dp_prev` entries are strictly decreasing indices, so
`arr.size + 1` steps of fuel always suffice on states produced by the
dynamic program. -/
def chainFrom (arr : Array TopoCand) (dpPrev : Array Int) : Nat → Int → List TopoCand
  | 0, _ => []
  | fuel + 1, curr =>
    if curr < 0 then []
    else arr.getD curr.toNat default ::
      chainFrom arr dpPrev fuel (dpPrev.getD curr.toNat (-1))

/-- Sorting, the dynamic program, and chain extraction (with the final
`reverse`) for one stream: profiler.py lines 675-701. -/
def longestChain (stream : List TopoCand) : List TopoCand :=
  let arr := (stableSortBy candLe stream).toArray
  let dp := dpArrays arr
  let max_idx := firstMaxIdx dp.1
  (chainFrom arr dp.2 (arr.size + 1) (Int.ofNat max_idx)).reverse

/-- `(var_p, var_v, cov)` of the winning chain, computed exactly over ℚ
(profiler.py lines 707-718). -/
def chainStats (chain : List TopoCand) : ℚ × ℚ × ℚ :=
  let n : ℚ := chain.length
  let mean_p := (chain.map (fun c => (c.p : ℚ))).sum / n
  let mean_v := (chain.map (fun c => (c.val : ℚ))).sum / n
  ((chain.map (fun c => ((c.p : ℚ) - mean_p) ^ 2)).sum,
   (chain.map (fun c => ((c.val : ℚ) - mean_v) ^ 2)).sum,
   (chain.map (fun c => ((c.p : ℚ) - mean_p) * ((c.val : ℚ) - mean_v))).sum)

/-- The correlation gate of profiler.py lines 715-723: reject on zero
variance, on `r < 0.5`, or on `slope < 0.2`.  With `var_p, var_v > 0`,
`r = cov / sqrt(var_p * var_v) < 1/2` holds exactly when `cov < 0` or
`4 * cov^2 < var_p * var_v`, and `slope = cov / var_p < 1/5` exactly when
`5 * cov < var_p`; the test is stated in that square-root-free form over ℚ. -/
def pearsonAccept (chain : List TopoCand) : Bool :=
  let st := chainStats chain
  if st.1 = 0 ∨ st.2.1 = 0 then false
  else if st.2.2 < 0 then false
  else if 4 * st.2.2 ^ 2 < st.1 * st.2.1 then false
  else if 5 * st.2.2 < st.1 then false
  else true

/-- The per-stream pipeline of the selection loop (profiler.py lines
670-723): size guard, longest chain, chain-length guard, correlation
guard.  Returns the surviving chain. -/
def processStream (stream : List TopoCand) : Option (List TopoCand) :=
  if stream.length < 3 then none
  else
    let chain := longestChain stream
    if chain.length < 3 then none
    else if pearsonAccept chain then some chain else none

/-- A stream key `(numbering type, y-band label)`. -/
structure StreamKey where
  ntype : PyStr
  band : PyStr
deriving DecidableEq, Repr

/-- One iteration of the winner fold: a surviving stream replaces the
current `(best_score, target_stream_key, winning_chain)` triple when its
score is strictly greater.  The score `len(chain) * r / (avg_std_x + 1)`
involves irrational square roots, so the score function is an explicit
parameter `sc`; every property proved below holds for all score functions,
in particular for the one of the source. -/
def selectStep (sc : StreamKey → List TopoCand → ℚ)
    (best : ℚ × Option StreamKey × List TopoCand)
    (kv : StreamKey × List TopoCand) : ℚ × Option StreamKey × List TopoCand :=
  match processStream kv.2 with
  | none => best
  | some chain =>
    let score := sc kv.1 chain
    if score > best.1 then (score, some kv.1, chain) else best

/-- The winner fold of profiler.py lines 666-737: `best_score` starts at
`-1`. -/
def selectWinner (sc : StreamKey → List TopoCand → ℚ)
    (streams : List (StreamKey × List TopoCand)) :
    Option StreamKey × List TopoCand :=
  let st := streams.foldl (selectStep sc) ((-1 : ℚ), none, [])
  (st.2.1, st.2.2)

/-- A concrete three-candidate arabic footer stream with perfectly linear
page/value progression. -/
def demoStream : List TopoCand :=
  [⟨1, 1, 0, "arabic".toList⟩, ⟨2, 2, 0, "arabic".toList⟩, ⟨3, 3, 0, "arabic".toList⟩]

/-- The stream key of `demoStream`. -/
def demoKey : StreamKey := ⟨"arabic".toList, "footer".toList⟩

/-- The running segment of the stitching loop (`curr_seg` in profiler.py
lines 749-890). -/
structure CurrSeg where
  physical_start : Int
  physical_end : Int
  printed_start : Int
  printed_end : Int
  last : Int
  run : Int
  numbering : PyStr
  stride : Option Int
  spacers : List Int
deriving DecidableEq, Repr

/-- The dictionary appended to `page_map` when a running segment closes. -/
def closeSeg (cs : CurrSeg) : Segment :=
  ⟨cs.physical_start, cs.physical_end, cs.printed_start, cs.printed_end,
   cs.numbering, cs.spacers⟩

/-- A freshly started running segment at page `p` with printed value `val`. -/
def newSeg (p val : Int) (nt : PyStr) : CurrSeg :=
  ⟨p, p, val, val, val, 1, nt, none, []⟩

/-- One iteration of the stitching loop for the candidate found at its page
(profiler.py lines 757-875).  `weight` is the external
`_compute_content_weight` oracle (it reads the document), used only to rank
gap pages; `raw_ratio.is_integer()` on the exact quotient `(N2-N1)/stride`
is divisibility. -/
def stitchStep (weight : Int → ℚ) (st : List Segment × Option CurrSeg)
    (c : TopoCand) : List Segment × Option CurrSeg :=
  match st.2 with
  | none => (st.1, some (newSeg c.p c.val c.ntype))
  | some cs =>
    if c.ntype = cs.numbering then
      if c.val > cs.last then
        let P1 := cs.physical_end
        let N1 := cs.last
        let P2 := c.p
        let N2 := c.val
        let stride := cs.stride.getD 1
        let missing_printed : Int :=
          if stride ∣ (N2 - N1) then
            let m := (N2 - N1) / stride - 1
            if m < 0 then 0 else m
          else 0
        let gap_physical_pages := P2 - P1 - 1
        if gap_physical_pages = 0 ∧ missing_printed = 0 then
          let stride1 := if cs.run = 1 then some (c.val - cs.last) else cs.stride
          (st.1, some { cs with printed_end := N2, physical_end := P2, last := N2,
                                run := cs.run + 1, stride := stride1 })
        else if gap_physical_pages > missing_printed then
          let gap_pages := ((List.range (P2 - P1 - 1).toNat).map
            (fun k => (P1 + 1 + Int.ofNat k, weight (P1 + 1 + Int.ofNat k))))
          let sorted := stableSortBy (fun a b => decide (b.2 ≤ a.2)) gap_pages
          let spacer_pages := (sorted.drop missing_printed.toNat).map (·.1)
          (st.1, some { cs with spacers := cs.spacers ++ spacer_pages,
                                printed_end := N2, physical_end := P2, last := N2,
                                run := cs.run + 1 + missing_printed })
        else if gap_physical_pages = missing_printed then
          (st.1, some { cs with printed_end := N2, physical_end := P2, last := N2,
                                run := cs.run + 1 + missing_printed })
        else
          (st.1 ++ [closeSeg cs], some (newSeg P2 N2 c.ntype))
      else
        (st.1 ++ [closeSeg cs], some (newSeg c.p c.val c.ntype))
    else
      (st.1 ++ [closeSeg cs], some (newSeg c.p c.val c.ntype))

/-- `winning_cands_by_page = {c['p']: c for c in winning_chain}`: a Python
dict comprehension keeps the last entry for each key. -/
def candsByPage (chain : List TopoCand) (p : Int) : Option TopoCand :=
  (chain.filter (fun c => c.p == p)).getLast?

/-- The loop `for p in range(1, topo_scan_limit + 1)` of the stitching
pass: feed each page's winning candidate (if any) to `stitchStep`. -/
def stitchFold (weight : Int → ℚ) (topo_scan_limit : Nat)
    (winning_chain : List TopoCand) : List Segment × Option CurrSeg :=
  (List.range topo_scan_limit).foldl
    (fun st i =>
      match candsByPage winning_chain (Int.ofNat i + 1) with
      | none => st
      | some c => stitchStep weight st c)
    ([], none)

/-- The full stitching pass of profiler.py lines 749-890: walk pages
`1..topo_scan_limit`, stitch, and close the final running segment. -/
def buildPageMap (weight : Int → ℚ) (topo_scan_limit : Nat)
    (winning_chain : List TopoCand) : List Segment :=
  match (stitchFold weight topo_scan_limit winning_chain).2 with
  | some cs => (stitchFold weight topo_scan_limit winning_chain).1 ++ [closeSeg cs]
  | none => (stitchFold weight topo_scan_limit winning_chain).1

/-- Whether an `Except` computation succeeded (the document was saved). -/
def exceptIsOk : Except ε α → Bool
  | .ok _ => true
  | .error _ => false

/-- A resolved reference that reaches the link-insertion code of
`annotate`: non-`None` `resolved_target` and `resolution_score` at or above
the confidence threshold. -/
def passesGate (mc : ℚ) (r : SemanticReference) : Bool :=
  r.resolved_target.isSome && decide (mc ≤ r.resolution_score)

/-- Both the source page and (when resolved) the target page lie within
`[1, total_pages]`. -/
def refInBounds (tp : Int) (r : SemanticReference) : Bool :=
  match r.resolved_target with
  | none => true
  | some t =>
    decide (1 ≤ r.source_page ∧ r.source_page ≤ tp ∧
            1 ≤ t.page_number ∧ t.page_number ≤ tp)

/-- Invariant carried through the stitching fold: emitted segments are
well-formed and strictly ordered, and the running segment (when present)
lies strictly after all of them and within the pages processed so far
(bound `b`). -/
def StitchInv (st : List Segment × Option CurrSeg) (b : Int) : Prop :=
  (∀ s ∈ st.1, s.physical_start ≤ s.physical_end) ∧
  List.Pairwise (fun a b2 => a.physical_end < b2.physical_start) st.1 ∧
  (match st.2 with
   | none => st.1 = []
   | some cs =>
     cs.physical_start ≤ cs.physical_end ∧ cs.physical_end ≤ b ∧
       ∀ s ∈ st.1, s.physical_end < cs.physical_start)

/-- C2: printed→physical resolution returns
`physical_start + (v - printed_start)` of the first segment (in list order)
whose numbering matches and whose inclusive printed range contains `v`;
when no segment matches it returns `none`; concretely, the segment
`{physical 5-10, printed 1-6, arabic}` sends printed 3 to physical 7 and
leaves printed 7 unresolved. -/
theorem resolve_printed_first_match :
    (∀ (pm1 : List Segment) (s : Segment) (pm2 : List Segment) (v : Int) (t : PyStr),
       (∀ s1 ∈ pm1, segMatches s1 v t = false) → segMatches s v t = true →
       _resolve_printed_to_physical (pm1 ++ s :: pm2) v t =
         some (s.physical_start + (v - s.printed_start))) ∧
    (∀ (pm : List Segment) (v : Int) (t : PyStr),
       (∀ s1 ∈ pm, segMatches s1 v t = false) →
       _resolve_printed_to_physical pm v t = none) ∧
    _resolve_printed_to_physical [⟨5, 10, 1, 6, "arabic".toList, []⟩] 3 ("arabic".toList) =
      some 7 ∧
    _resolve_printed_to_physical [⟨5, 10, 1, 6, "arabic".toList, []⟩] 7 ("arabic".toList) =
      none := by
  refine ⟨?_, ?_, by decide, by decide⟩
  · intro pm1 s pm2 v t hnone hs
    induction pm1 with
    | nil => simp [_resolve_printed_to_physical, hs]
    | cons s1 pm1 ih =>
      have h1 : segMatches s1 v t = false := hnone s1 (by simp)
      simp only [List.cons_append, _resolve_printed_to_physical, h1,
        Bool.false_eq_true, if_false]
      exact ih (fun s2 hs2 => hnone s2 (List.mem_cons_of_mem _ hs2))
  · intro pm v t hnone
    induction pm with
    | nil => rfl
    | cons s1 pm ih =>
      have h1 : segMatches s1 v t = false := hnone s1 (by simp)
      simp only [_resolve_printed_to_physical, h1, Bool.false_eq_true, if_false]
      exact ih (fun s2 hs2 => hnone s2 (List.mem_cons_of_mem _ hs2))

/-- Witness for C2: instantiating the first-match part on a two-segment
page map where the second segment is the first match. -/
theorem resolve_printed_first_match_witness :
    _resolve_printed_to_physical
      [⟨1, 4, 1, 4, "roman".toList, []⟩, ⟨5, 10, 1, 6, "arabic".toList, []⟩]
      3 ("arabic".toList) = some 7 :=
  resolve_printed_first_match.1
    [⟨1, 4, 1, 4, "roman".toList, []⟩] ⟨5, 10, 1, 6, "arabic".toList, []⟩ [] 3
    ("arabic".toList) (by decide) (by decide)

/-- C9: a resolved reference whose score is strictly below the confidence
threshold contributes no link and does not abort the pass: `annotate` on a
list containing it equals `annotate` on the list without it. -/
theorem annotate_drops_below_threshold (mc : ℚ) (tp : Int)
    (pre post : List SemanticReference) (r : SemanticReference) (t : TargetNode)
    (h1 : r.resolved_target = some t) (h2 : r.resolution_score < mc) :
    annotate mc tp (pre ++ r :: post) = annotate mc tp (pre ++ post) := by
  induction pre with
  | nil => simp [annotate, h1, h2]
  | cons a pre ih =>
    cases ha : a.resolved_target with
    | none => simp only [List.cons_append, annotate, ha, List.append_eq, ih]
    | some ta =>
      by_cases hsc : a.resolution_score < mc
      · simp only [List.cons_append, annotate, ha, if_pos hsc, List.append_eq, ih]
      · simp only [List.cons_append, annotate, ha, if_neg hsc, List.append_eq, ih]

/-- Witness for C9: a concrete resolved reference with score 0 below the
threshold 3/4 is dropped without aborting. -/
theorem annotate_drops_below_threshold_witness :
    annotate (3 / 4) 10
      [⟨1, "page:arabic:2".toList, "see page 2".toList, ((0 : ℚ), (0 : ℚ), (1 : ℚ), (1 : ℚ)),
        none, some ⟨"page:arabic:2".toList, "direct_page".toList, "p2".toList, 2, 1⟩, 0⟩] =
      annotate (3 / 4) 10 [] :=
  annotate_drops_below_threshold (3 / 4) 10 [] []
    ⟨1, "page:arabic:2".toList, "see page 2".toList, ((0 : ℚ), (0 : ℚ), (1 : ℚ), (1 : ℚ)),
      none, some ⟨"page:arabic:2".toList, "direct_page".toList, "p2".toList, 2, 1⟩, 0⟩
    ⟨"page:arabic:2".toList, "direct_page".toList, "p2".toList, 2, 1⟩ rfl (by norm_num)

/-- C10 (amended): the profiler's `roman_to_int` equals the miner's
`_roman_to_int` composed with the profiler's own input normalisation
(`lower` then `strip`); on strings fixed by that normalisation the two
converters agree exactly. -/
theorem roman_converters_normalised (s : PyStr) :
    roman_to_int s = minerRomanToInt (pyStrip (pyToLower s)) ∧
    (pyToLower s = s → pyStrip s = s → roman_to_int s = minerRomanToInt s) := by
  refine ⟨rfl, fun e1 e2 => ?_⟩
  simp only [roman_to_int, minerRomanToInt, e1, e2]

/-- Witness for C10: on the already-normalised string "xiv" both
converters return the same value. -/
theorem roman_converters_normalised_witness :
    roman_to_int ("xiv".toList) = minerRomanToInt ("xiv".toList) :=
  (roman_converters_normalised ("xiv".toList)).2 (by decide) (by decide)

/-- Counterexample for C10 as stated: the two converters are not
extensionally equal — on the input "I" the profiler converter lower-cases
first and returns 1, while the miner converter maps the unknown upper-case
character to 0. -/
theorem roman_converters_differ_cex :
    roman_to_int ("I".toList) = 1 ∧ minerRomanToInt ("I".toList) = 0 ∧
    roman_to_int ("I".toList) ≠ minerRomanToInt ("I".toList) := by decide

/-- C1: if any reference passing the confidence gate has a source or target
page outside `[1, total_pages]`, `annotate` fails and no document is
written; if every gate-passing reference is in bounds, `annotate` succeeds
and inserts exactly one link per reference with a non-`None` resolved
target and score at or above the threshold. -/
theorem annotate_transactional (mc : ℚ) (tp : Int) (refs : List SemanticReference) :
    ((∃ r ∈ refs, passesGate mc r = true ∧ refInBounds tp r = false) →
        exceptIsOk (annotate mc tp refs) = false) ∧
    ((∀ r ∈ refs, passesGate mc r = true → refInBounds tp r = true) →
        annotate mc tp refs = .ok (refs.filter (passesGate mc)).length) := by
  induction refs with
  | nil =>
    constructor
    · rintro ⟨r, hr, -⟩
      exact absurd hr (List.not_mem_nil r)
    · intro _
      rfl
  | cons a rest ih =>
    constructor
    · rintro ⟨r, hr, hpass, hbad⟩
      rcases List.mem_cons.mp hr with rfl | hr'
      · cases ha : r.resolved_target with
        | none => simp [passesGate, ha] at hpass
        | some ta =>
          have hsc : ¬ r.resolution_score < mc := by
            simp only [passesGate, ha, Option.isSome_some, Bool.true_and,
              decide_eq_true_eq] at hpass
            exact not_lt.mpr hpass
          have hnb : ¬ (1 ≤ r.source_page ∧ r.source_page ≤ tp ∧
              1 ≤ ta.page_number ∧ ta.page_number ≤ tp) := by
            simpa [refInBounds, ha] using hbad
          simp only [annotate, ha, if_neg hsc]
          have hdis : ¬ (0 ≤ r.source_page - 1 ∧ r.source_page - 1 < tp) ∨
              ¬ (0 ≤ ta.page_number - 1 ∧ ta.page_number - 1 < tp) := by omega
          by_cases hc1 : ¬ (0 ≤ r.source_page - 1 ∧ r.source_page - 1 < tp)
          · rw [if_pos hc1]
            rfl
          · rw [if_neg hc1, if_pos (hdis.resolve_left hc1)]
            rfl
      · cases ha : a.resolved_target with
        | none =>
          simpa [annotate, ha] using ih.1 ⟨r, hr', hpass, hbad⟩
        | some ta =>
          by_cases hsc : a.resolution_score < mc
          · simpa [annotate, ha, if_pos hsc] using ih.1 ⟨r, hr', hpass, hbad⟩
          · simp only [annotate, ha, if_neg hsc]
            by_cases hc1 : ¬ (0 ≤ a.source_page - 1 ∧ a.source_page - 1 < tp)
            · rw [if_pos hc1]
              rfl
            · rw [if_neg hc1]
              by_cases hc2 : ¬ (0 ≤ ta.page_number - 1 ∧ ta.page_number - 1 < tp)
              · rw [if_pos hc2]
                rfl
              · rw [if_neg hc2]
                have hihf := ih.1 ⟨r, hr', hpass, hbad⟩
                cases hrest : annotate mc tp rest with
                | ok n =>
                  rw [hrest] at hihf
                  exact absurd hihf (by simp [exceptIsOk])
                | error e => simp [hrest, Except.map, exceptIsOk]
    · intro hall
      cases ha : a.resolved_target with
      | none =>
        have hp : passesGate mc a = false := by simp [passesGate, ha]
        simp only [annotate, ha, List.filter_cons, hp, Bool.false_eq_true, if_false]
        exact ih.2 (fun r hr hp2 => hall r (List.mem_cons_of_mem _ hr) hp2)
      | some ta =>
        by_cases hsc : a.resolution_score < mc
        · have hp : passesGate mc a = false := by
            simp [passesGate, ha, not_le.mpr hsc]
          simp only [annotate, ha, if_pos hsc, List.filter_cons, hp,
            Bool.false_eq_true, if_false]
          exact ih.2 (fun r hr hp2 => hall r (List.mem_cons_of_mem _ hr) hp2)
        · have hp : passesGate mc a = true := by
            simp [passesGate, ha, not_lt.mp hsc]
          have hbnd : 1 ≤ a.source_page ∧ a.source_page ≤ tp ∧
              1 ≤ ta.page_number ∧ ta.page_number ≤ tp := by
            simpa [refInBounds, ha] using hall a (List.mem_cons_self a rest) hp
          have hb1 : ¬ ¬ (0 ≤ a.source_page - 1 ∧ a.source_page - 1 < tp) := by omega
          have hb2 : ¬ ¬ (0 ≤ ta.page_number - 1 ∧ ta.page_number - 1 < tp) := by omega
          simp only [annotate, ha, if_neg hsc, if_neg hb1, if_neg hb2]
          rw [ih.2 (fun r hr hp2 => hall r (List.mem_cons_of_mem _ hr) hp2)]
          simp [List.filter_cons, hp, Except.map]

/-- Witness for C1: on a two-reference list whose gate-passing reference is
in bounds, `annotate` succeeds with exactly one inserted link. -/
theorem annotate_transactional_witness :
    annotate 1 10
      [⟨1, "page:arabic:2".toList, "see page 2".toList,
         ((0 : ℚ), (0 : ℚ), (1 : ℚ), (1 : ℚ)), none,
         some ⟨"page:arabic:2".toList, "direct_page".toList, "p2".toList, 6, 1⟩, 1⟩,
       ⟨2, "map:02".toList, "see map 2".toList,
         ((0 : ℚ), (0 : ℚ), (1 : ℚ), (1 : ℚ)), none, none, 0⟩] =
      .ok 1 := by
  rw [(annotate_transactional 1 10
    [⟨1, "page:arabic:2".toList, "see page 2".toList,
       ((0 : ℚ), (0 : ℚ), (1 : ℚ), (1 : ℚ)), none,
       some ⟨"page:arabic:2".toList, "direct_page".toList, "p2".toList, 6, 1⟩, 1⟩,
     ⟨2, "map:02".toList, "see map 2".toList,
       ((0 : ℚ), (0 : ℚ), (1 : ℚ), (1 : ℚ)), none, none, 0⟩]).2 (by decide)]
  rfl

/-- C5: the miner's Roman converter sends "xiv" to 14 and "mcmxcix" to
1999, the strict grammar rejects "iiii", and every page-reference match
whose (lower-cased) captured token is non-numeric and fails the strict
Roman grammar — "iiii" for example — is discarded by the grammar gate
before conversion is attempted, so no `SemanticReference` is produced
from it, in any mining context. -/
theorem roman_grammar_gate :
    minerRomanToInt ("xiv".toList) = 14 ∧
    minerRomanToInt ("mcmxcix".toList) = 1999 ∧
    romanValid ("iiii".toList) = false ∧
    (∀ (ctx : MineCtx) (g0 token : PyStr),
       pyIsDigit (pyToLower token) = false →
       romanValid (pyToLower token) = false →
       processMatch ctx g0 token = .ok none) := by
  refine ⟨by decide, by decide, by decide, fun ctx g0 token h1 h2 => ?_⟩
  simp only [processMatch, h1, h2, Bool.not_false, Bool.or_true, Bool.and_true,
    Bool.true_and, if_true]

/-- Witness for C5: the grammar-failing token "iiii" is rejected in a
concrete mining context. -/
theorem roman_grammar_gate_witness :
    processMatch ⟨0, "see page iiii".toList, ((0 : ℚ), (0 : ℚ), (5 : ℚ), (1 : ℚ)),
        fun _ => []⟩ ("page iiii".toList) ("iiii".toList) = .ok none :=
  roman_grammar_gate.2.2.2
    ⟨0, "see page iiii".toList, ((0 : ℚ), (0 : ℚ), (5 : ℚ), (1 : ℚ)), fun _ => []⟩
    ("page iiii".toList) ("iiii".toList) (by decide) (by decide)

/-- A chain emitted by the per-stream pipeline has at least 3 candidates
and passed the correlation gate. -/
theorem processStream_some {s ch : List TopoCand} (h : processStream s = some ch) :
    3 ≤ ch.length ∧ pearsonAccept ch = true := by
  simp only [processStream] at h
  by_cases h1 : s.length < 3
  · rw [if_pos h1] at h
    cases h
  · rw [if_neg h1] at h
    by_cases h2 : (longestChain s).length < 3
    · rw [if_pos h2] at h
      cases h
    · rw [if_neg h2] at h
      by_cases h3 : pearsonAccept (longestChain s) = true
      · rw [if_pos h3] at h
        cases h
        exact ⟨not_lt.mp h2, h3⟩
      · rw [if_neg h3] at h
        cases h

/-- The winner-fold step preserves "any recorded winner passed the
per-stream gates". -/
theorem selectStep_preserves (sc : StreamKey → List TopoCand → ℚ)
    (best : ℚ × Option StreamKey × List TopoCand) (kv : StreamKey × List TopoCand)
    (hb : ∀ k, best.2.1 = some k → 3 ≤ best.2.2.length ∧ pearsonAccept best.2.2 = true) :
    ∀ k, (selectStep sc best kv).2.1 = some k →
      3 ≤ (selectStep sc best kv).2.2.length ∧
        pearsonAccept (selectStep sc best kv).2.2 = true := by
  intro k hk
  cases hps : processStream kv.2 with
  | none =>
    simp only [selectStep, hps] at hk ⊢
    exact hb k hk
  | some chain =>
    simp only [selectStep, hps] at hk ⊢
    by_cases hgt : sc kv.1 chain > best.1
    · simp only [if_pos hgt] at hk ⊢
      exact processStream_some hps
    · simp only [if_neg hgt] at hk ⊢
      exact hb k hk

/-- C4 (amended): whichever stream the selection fold keeps, its winning
chain passed every gate — at least 3 candidates (hence at least 2 valid
edges) and the exact correlation test; consequently a stream whose longest
chain has fewer than 3 candidates, or fails the `r`/slope gate, is never
the selected stream and never contributes a segment to the page map. -/
theorem stream_selection_only_accepts (sc : StreamKey → List TopoCand → ℚ)
    (streams : List (StreamKey × List TopoCand)) (k : StreamKey)
    (ch : List TopoCand) (h : selectWinner sc streams = (some k, ch)) :
    3 ≤ ch.length ∧ pearsonAccept ch = true := by
  have main : ∀ (l : List (StreamKey × List TopoCand))
      (init : ℚ × Option StreamKey × List TopoCand),
      (∀ k0, init.2.1 = some k0 →
        3 ≤ init.2.2.length ∧ pearsonAccept init.2.2 = true) →
      ∀ k0, (l.foldl (selectStep sc) init).2.1 = some k0 →
        3 ≤ (l.foldl (selectStep sc) init).2.2.length ∧
          pearsonAccept (l.foldl (selectStep sc) init).2.2 = true := by
    intro l
    induction l with
    | nil => intro init hinit k0 hk0; exact hinit k0 hk0
    | cons kv l ih =>
      intro init hinit k0 hk0
      exact ih (selectStep sc init kv) (selectStep_preserves sc init kv hinit) k0 hk0
  have h1 : (streams.foldl (selectStep sc) ((-1 : ℚ), none, [])).2.1 = some k := by
    have := congrArg Prod.fst h
    simpa [selectWinner] using this
  have h2 : (streams.foldl (selectStep sc) ((-1 : ℚ), none, [])).2.2 = ch := by
    have := congrArg Prod.snd h
    simpa [selectWinner] using this
  have := main streams ((-1 : ℚ), none, []) (by intro k0 hk0; cases hk0) k h1
  rwa [h2] at this

/-- Evaluation of the per-stream pipeline on the demo stream: it survives
every gate. -/
theorem processStream_demoStream : processStream demoStream = some demoStream := by
  have h1 : longestChain demoStream = demoStream := by decide
  have h2 : chainStats demoStream = (2, 2, 2) := by
    simp only [chainStats, demoStream, List.map_cons, List.map_nil, List.sum_cons,
      List.sum_nil, List.length_cons, List.length_nil]
    norm_num
  have h3 : pearsonAccept demoStream = true := by
    simp only [pearsonAccept, h2]
    norm_num
  simp only [processStream, h1, h3]
  decide

/-- Evaluation of the winner fold on the single demo stream. -/
theorem selectWinner_demoStream :
    selectWinner (fun _ _ => 1) [(demoKey, demoStream)] =
      (some demoKey, demoStream) := by
  simp only [selectWinner, List.foldl_cons, List.foldl_nil, selectStep,
    processStream_demoStream]
  norm_num

/-- Witness for C4: on the demo stream the selected chain indeed has at
least 3 candidates and passed the correlation gate. -/
theorem stream_selection_only_accepts_witness :
    3 ≤ demoStream.length ∧ pearsonAccept demoStream = true :=
  stream_selection_only_accepts (fun _ _ => 1) [(demoKey, demoStream)] demoKey
    demoStream selectWinner_demoStream

/-- Counterexample for C4 as stated: the demo stream's longest chain has
exactly 2 valid edges (3 candidates) — fewer than 3 edges — and perfect
correlation, yet it is selected as the winning stream and stitches a
segment into the page map, so "fewer than 3 valid edges implies rejection"
fails on the code (the guard is on candidates, not edges). -/
theorem stream_two_edge_chain_selected_cex :
    selectWinner (fun _ _ => 1) [(demoKey, demoStream)] =
      (some demoKey, demoStream) ∧
    demoStream.length - 1 = 2 ∧
    buildPageMap (fun _ => 0) 3 demoStream =
      [⟨1, 3, 1, 3, "arabic".toList, []⟩] :=
  ⟨selectWinner_demoStream, by decide, by decide⟩

/-- The stitching invariant only weakens as the page bound grows. -/
theorem stitchInv_mono {st : List Segment × Option CurrSeg} {b b2 : Int}
    (h : StitchInv st b) (hb : b ≤ b2) : StitchInv st b2 := by
  obtain ⟨pm, cso⟩ := st
  obtain ⟨hA, hB, hC⟩ := h
  refine ⟨hA, hB, ?_⟩
  cases cso with
  | none => exact hC
  | some cs => exact ⟨hC.1, le_trans hC.2.1 hb, hC.2.2⟩

/-- A continuation update (same start, end moved to the current page)
preserves the stitching invariant. -/
theorem stitchInv_cont {pm : List Segment} {cs : CurrSeg} {b q : Int}
    (cs2 : CurrSeg) (h : StitchInv (pm, some cs) b) (hb : b < q)
    (h1 : cs2.physical_start = cs.physical_start)
    (h2 : cs2.physical_end = q) :
    StitchInv (pm, some cs2) q := by
  obtain ⟨hA, hB, hc1, hc2, hc3⟩ := h
  refine ⟨hA, hB, ?_, ?_, ?_⟩
  · rw [h1, h2]
    omega
  · rw [h2]
  · intro s hs
    rw [h1]
    exact hc3 s hs

/-- Closing the running segment and restarting at the current page
preserves the stitching invariant. -/
theorem stitchInv_close {pm : List Segment} {cs : CurrSeg} {b q : Int}
    (val : Int) (nt : PyStr) (h : StitchInv (pm, some cs) b) (hb : b < q) :
    StitchInv (pm ++ [closeSeg cs], some (newSeg q val nt)) q := by
  obtain ⟨hA, hB, hc1, hc2, hc3⟩ := h
  refine ⟨?_, ?_, le_refl q, le_refl q, ?_⟩
  · intro s hs
    rcases List.mem_append.mp hs with hs | hs
    · exact hA s hs
    · simp only [List.mem_singleton] at hs
      subst hs
      exact hc1
  · refine List.pairwise_append.mpr ⟨hB, List.pairwise_singleton _ _, ?_⟩
    intro a ha b2 hb2
    simp only [List.mem_singleton] at hb2
    subst hb2
    exact hc3 a ha
  · intro s hs
    rcases List.mem_append.mp hs with hs | hs
    · have := hc3 s hs
      show s.physical_end < q
      omega
    · simp only [List.mem_singleton] at hs
      subst hs
      show cs.physical_end < q
      omega

/-- One stitching step at page `c.p`, strictly after every page seen so
far, preserves the invariant with the new bound `c.p`. -/
theorem stitchStep_inv {st : List Segment × Option CurrSeg} {b : Int}
    (w : Int → ℚ) (c : TopoCand) (h : StitchInv st b) (hb : b < c.p) :
    StitchInv (stitchStep w st c) c.p := by
  obtain ⟨pm, cso⟩ := st
  cases cso with
  | none =>
    obtain ⟨hA, hB, hC⟩ := h
    subst hC
    show StitchInv ([], some (newSeg c.p c.val c.ntype)) c.p
    exact ⟨fun s hs => absurd hs (List.not_mem_nil s), List.Pairwise.nil,
           le_refl _, le_refl _, fun s hs => absurd hs (List.not_mem_nil s)⟩
  | some cs =>
    simp only [stitchStep]
    split_ifs <;>
      first
        | exact stitchInv_cont _ h hb rfl rfl
        | exact stitchInv_close _ _ h hb

/-- A candidate returned by the page lookup sits on the requested page. -/
theorem candsByPage_p {chain : List TopoCand} {p : Int} {c : TopoCand}
    (h : candsByPage chain p = some c) : c.p = p := by
  unfold candsByPage at h
  have hx : c ∈ (chain.filter (fun c2 => c2.p == p)).getLast? := by
    rw [h]
    rfl
  obtain ⟨hne, heq⟩ := List.mem_getLast?_eq_getLast hx
  have hmem : c ∈ chain.filter (fun c2 => c2.p == p) := heq ▸ List.getLast_mem hne
  have := List.of_mem_filter hmem
  simpa using this

/-- Unfolding one page of the stitching fold. -/
theorem stitchFold_succ (w : Int → ℚ) (chain : List TopoCand) (n : Nat) :
    stitchFold w (n + 1) chain =
      (match candsByPage chain (Int.ofNat n + 1) with
       | none => stitchFold w n chain
       | some c => stitchStep w (stitchFold w n chain) c) := by
  simp only [stitchFold, List.range_succ, List.foldl_append, List.foldl_cons,
    List.foldl_nil]

/-- The stitching fold maintains the invariant up to the number of pages
walked. -/
theorem stitchFold_inv (w : Int → ℚ) (chain : List TopoCand) (n : Nat) :
    StitchInv (stitchFold w n chain) (Int.ofNat n) := by
  induction n with
  | zero => exact ⟨fun s hs => absurd hs (List.not_mem_nil s), List.Pairwise.nil, rfl⟩
  | succ n ih =>
    have he : Int.ofNat (n + 1) = Int.ofNat n + 1 := rfl
    rw [stitchFold_succ, he]
    cases hc : candsByPage chain (Int.ofNat n + 1) with
    | none => exact stitchInv_mono ih (by omega)
    | some c =>
      have hcp : c.p = Int.ofNat n + 1 := candsByPage_p hc
      have h2 : Int.ofNat n < c.p := by omega
      have h3 := stitchStep_inv w c ih h2
      rwa [hcp] at h3

/-- C8: the page map produced by the stitching pass is chronologically
ordered — every segment has `physical_start ≤ physical_end`, and each
consecutive pair of segments satisfies
`earlier.physical_end < later.physical_start`; segments are only ever
appended. -/
theorem page_map_chronological (weight : Int → ℚ) (limit : Nat)
    (chain : List TopoCand) :
    (∀ s ∈ buildPageMap weight limit chain, s.physical_start ≤ s.physical_end) ∧
    List.Chain' (fun a b => a.physical_end < b.physical_start)
      (buildPageMap weight limit chain) := by
  obtain ⟨hA, hB, hC⟩ := stitchFold_inv weight chain limit
  simp only [buildPageMap]
  cases hcs : (stitchFold weight limit chain).2 with
  | none => exact ⟨hA, hB.chain'⟩
  | some cs =>
    rw [hcs] at hC
    refine ⟨?_, ?_⟩
    · intro s hs
      rcases List.mem_append.mp hs with hs | hs
      · exact hA s hs
      · simp only [List.mem_singleton] at hs
        subst hs
        exact hC.1
    · apply List.Pairwise.chain'
      refine List.pairwise_append.mpr ⟨hB, List.pairwise_singleton _ _, ?_⟩
      intro a ha b2 hb2
      simp only [List.mem_singleton] at hb2
      subst hb2
      exact hC.2.2 a ha

/-- Facts about decimal digit characters used by the round-trip proofs. -/
theorem digitChar_props (d : Nat) (hd : d < 10) :
    charDigit? (digitChar d) = some d ∧ digitChar d ≠ ':' ∧ digitChar d ≠ '+' ∧
      digitChar d ≠ '-' ∧ digitChar d ≠ '_' ∧ isPyWs (digitChar d) = false := by
  interval_cases d <;> exact ⟨rfl, by decide, by decide, by decide, by decide, rfl⟩

/-- Every character of a decimal representation is a digit character. -/
theorem natDigits_all (n : Nat) :
    ∀ c ∈ natDigits n, ∃ d, d < 10 ∧ c = digitChar d := by
  induction n using Nat.strong_induction_on with
  | _ n ih =>
    rw [natDigits]
    split_ifs with h
    · intro c hc
      simp only [List.mem_singleton] at hc
      exact ⟨n, h, hc⟩
    · intro c hc
      rcases List.mem_append.mp hc with hc | hc
      · exact ih (n / 10) (Nat.div_lt_self (by omega) (by omega)) c hc
      · simp only [List.mem_singleton] at hc
        exact ⟨n % 10, Nat.mod_lt n (by omega), hc⟩

/-- A decimal representation is never empty. -/
theorem natDigits_ne_nil (n : Nat) : natDigits n ≠ [] := by
  rw [natDigits]
  split_ifs with h
  · simp
  · simp

/-- Unfolding `int()` digit accumulation over one leading digit. -/
theorem pyNatUndAux_cons_digit (acc d : Nat) (hd : d < 10) (rest : PyStr) :
    pyNatUndAux acc (digitChar d :: rest) = pyNatUndAux (acc * 10 + d) rest := by
  have hp := digitChar_props d hd
  conv_lhs => rw [pyNatUndAux.eq_def]
  simp only [if_neg hp.2.2.2.2.1, hp.1]

/-- The digit-accumulation step on a digit character. -/
theorem digitStep_digitChar (acc d : Nat) (hd : d < 10) :
    digitStep acc (digitChar d) = acc * 10 + d := by
  simp only [digitStep, (digitChar_props d hd).1, Option.getD_some]

/-- Python `int()` digit accumulation consumes a leading block of plain
digit characters like a fold. -/
theorem pyNatUndAux_digits (l1 : PyStr) :
    ∀ (l2 : PyStr) (acc : Nat), (∀ c ∈ l1, ∃ d, d < 10 ∧ c = digitChar d) →
      pyNatUndAux acc (l1 ++ l2) = pyNatUndAux (l1.foldl digitStep acc) l2 := by
  induction l1 with
  | nil => intro l2 acc h; rfl
  | cons c l1 ih =>
    intro l2 acc h
    obtain ⟨d, hd, rfl⟩ := h c (List.mem_cons_self c l1)
    rw [List.cons_append, pyNatUndAux_cons_digit acc d hd, List.foldl_cons,
      digitStep_digitChar acc d hd]
    exact ih l2 (acc * 10 + d) (fun c2 hc2 => h c2 (List.mem_cons_of_mem _ hc2))

/-- Folding the digit-accumulation step over a decimal representation
recovers the number. -/
theorem natDigits_foldl (n : Nat) :
    ∀ acc, (natDigits n).foldl digitStep acc =
      acc * 10 ^ (natDigits n).length + n := by
  induction n using Nat.strong_induction_on with
  | _ n ih =>
    intro acc
    rw [natDigits]
    split_ifs with h
    · simp only [List.foldl_cons, List.foldl_nil, digitStep,
        (digitChar_props n h).1, Option.getD_some, List.length_singleton]
      ring
    · rw [List.foldl_append, List.length_append,
        ih (n / 10) (Nat.div_lt_self (by omega) (by omega)) acc]
      simp only [List.foldl_cons, List.foldl_nil, digitStep,
        (digitChar_props (n % 10) (Nat.mod_lt n (by omega))).1, Option.getD_some,
        List.length_singleton]
      have hn : n = 10 * (n / 10) + n % 10 := (Nat.div_add_mod n 10).symm
      rw [pow_add]
      ring_nf
      omega

/-- Parsing the digit block of a decimal representation recovers the
number. -/
theorem pyNatUnd_natDigits (n : Nat) : pyNatUnd (natDigits n) = some n := by
  cases hnd : natDigits n with
  | nil => exact absurd hnd (natDigits_ne_nil n)
  | cons c rest =>
    have hmem : c ∈ natDigits n := by
      rw [hnd]
      exact List.mem_cons_self c rest
    obtain ⟨d, hd, hcd⟩ := natDigits_all n c hmem
    subst hcd
    have h0 : pyNatUnd (digitChar d :: rest) = pyNatUndAux 0 (digitChar d :: rest) := by
      rw [pyNatUndAux_cons_digit 0 d hd, Nat.zero_mul, Nat.zero_add]
      simp only [pyNatUnd, (digitChar_props d hd).1]
    rw [h0, ← hnd, show natDigits n = natDigits n ++ [] by simp,
      pyNatUndAux_digits (natDigits n) [] 0 (natDigits_all n)]
    simp only [show natDigits n ++ [] = natDigits n by simp, pyNatUndAux,
      natDigits_foldl n 0, Nat.zero_mul, Nat.zero_add]

/-- `strip` leaves a string with no whitespace characters unchanged. -/
theorem pyStrip_of_no_ws {l : PyStr} (h : ∀ c ∈ l, isPyWs c = false) :
    pyStrip l = l := by
  have h1 : l.dropWhile isPyWs = l := by
    cases l with
    | nil => rfl
    | cons c rest =>
      rw [List.dropWhile_cons, h c (List.mem_cons_self c rest)]
      simp
  show ((l.dropWhile isPyWs).reverse.dropWhile isPyWs).reverse = l
  rw [h1]
  show List.rdropWhile isPyWs l = l
  exact List.rdropWhile_eq_self_iff.mpr
    (fun hl => by simp [h _ (List.getLast_mem hl)])

/-- Python `int()` inverts decimal representation. -/
theorem pyInt?_natDigits (n : Nat) : pyInt? (natDigits n) = some (Int.ofNat n) := by
  have hstrip : pyStrip (natDigits n) = natDigits n :=
    pyStrip_of_no_ws (fun c hc => by
      obtain ⟨d, hd, rfl⟩ := natDigits_all n c hc
      exact (digitChar_props d hd).2.2.2.2.2)
  cases hnd : natDigits n with
  | nil => exact absurd hnd (natDigits_ne_nil n)
  | cons c rest =>
    have hmem : c ∈ natDigits n := by
      rw [hnd]
      exact List.mem_cons_self c rest
    obtain ⟨d, hd, hcd⟩ := natDigits_all n c hmem
    subst hcd
    have hnu := pyNatUnd_natDigits n
    rw [hnd] at hnu
    rw [hnd] at hstrip
    simp only [pyInt?, hstrip, if_neg (digitChar_props d hd).2.2.1,
      if_neg (digitChar_props d hd).2.2.2.1, hnu]
    rfl

/-- A split list always has at least one group. -/
theorem splitCh_shape (sep : Char) (l : PyStr) :
    ∃ g gs, splitCh sep l = g :: gs := by
  induction l with
  | nil => exact ⟨[], [], rfl⟩
  | cons c rest ih =>
    obtain ⟨g, gs, hg⟩ := ih
    by_cases hc : c = sep
    · exact ⟨[], g :: gs, by simp only [splitCh, hg, if_pos hc]⟩
    · exact ⟨c :: g, gs, by simp only [splitCh, hg, if_neg hc]⟩

/-- Splitting a separator-free string yields that single group. -/
theorem splitCh_no_sep (sep : Char) (l : PyStr) (h : ∀ c ∈ l, c ≠ sep) :
    splitCh sep l = [l] := by
  induction l with
  | nil => rfl
  | cons c rest ih =>
    have hr := ih (fun c2 hc2 => h c2 (List.mem_cons_of_mem _ hc2))
    simp only [splitCh, hr, if_neg (h c (List.mem_cons_self c rest))]

/-- Splitting peels off a separator-free leading group. -/
theorem splitCh_append_sep (sep : Char) (l1 l2 : PyStr)
    (h : ∀ c ∈ l1, c ≠ sep) :
    splitCh sep (l1 ++ sep :: l2) = l1 :: splitCh sep l2 := by
  induction l1 with
  | nil =>
    obtain ⟨g, gs, hg⟩ := splitCh_shape sep l2
    simp only [List.nil_append, splitCh, hg, if_pos rfl, if_true, eq_self_iff_true]
  | cons c l1 ih =>
    have hr := ih (fun c2 hc2 => h c2 (List.mem_cons_of_mem _ hc2))
    obtain ⟨g, gs, hg⟩ := splitCh_shape sep l2
    rw [hg] at hr
    simp only [List.cons_append, List.append_eq, splitCh, hr,
      if_neg (h c (List.mem_cons_self c l1)), hg]

/-- A list is a (boolean) prefix of itself followed by anything. -/
theorem isPrefixOf_append_self (l1 l2 : List Char) :
    l1.isPrefixOf (l1 ++ l2) = true := by
  simp only [List.isPrefixOf_iff_prefix]
  exact List.prefix_append l1 l2

/-- C3: parsing the URN generated for a positive page value and a
numbering type in {arabic, roman} returns exactly that pair — the URN
grammar round-trips. -/
theorem urn_round_trip (v : Int) (hv : 0 < v) (t : PyStr)
    (ht : t = "arabic".toList ∨ t = "roman".toList) :
    parse_page_urn (generate_page_urn v t) = .ok (some (t, v)) := by
  have hlt : pyToLower t = t := by
    rcases ht with rfl | rfl <;> decide
  have hvr : intRepr v = natDigits v.natAbs := by
    unfold intRepr
    rw [if_neg (by omega : ¬ v < 0)]
  have hdscolon : ∀ c ∈ natDigits v.natAbs, c ≠ ':' := fun c hc => by
    obtain ⟨d, hd, rfl⟩ := natDigits_all v.natAbs c hc
    exact (digitChar_props d hd).2.1
  have htcolon : ∀ c ∈ t, c ≠ ':' := by
    rcases ht with rfl | rfl <;> decide
  have hgen : generate_page_urn v t =
      "page".toList ++ ':' :: (t ++ ':' :: natDigits v.natAbs) := by
    unfold generate_page_urn
    rw [hlt, hvr]
    rfl
  have hpre : ("page:".toList).isPrefixOf (generate_page_urn v t) = true := by
    unfold generate_page_urn
    rw [hlt, hvr]
    exact isPrefixOf_append_self _ _
  have hsplit : splitCh ':' (generate_page_urn v t) =
      ["page".toList, t, natDigits v.natAbs] := by
    rw [hgen, splitCh_append_sep ':' ("page".toList) _ (by decide),
      splitCh_append_sep ':' t _ htcolon,
      splitCh_no_sep ':' _ hdscolon]
  unfold parse_page_urn
  rw [if_pos hpre, hsplit]
  have hlen : ¬ ((["page".toList, t, natDigits v.natAbs] : List PyStr).length ≠ 3) := by
    simp
  rw [if_neg hlen]
  have hget2 : (["page".toList, t, natDigits v.natAbs] : List PyStr).getD 2 [] =
      natDigits v.natAbs := rfl
  have hget1 : (["page".toList, t, natDigits v.natAbs] : List PyStr).getD 1 [] = t := rfl
  rw [hget2, hget1, pyInt?_natDigits]
  have hnat : Int.ofNat v.natAbs = v := Int.natAbs_of_nonneg hv.le
  rw [hnat]

/-- Witness for C3: the round trip at the concrete pair (42, roman). -/
theorem urn_round_trip_witness :
    parse_page_urn (generate_page_urn 42 ("roman".toList)) =
      .ok (some ("roman".toList, 42)) :=
  urn_round_trip 42 (by decide) ("roman".toList) (Or.inr rfl)

/-- Single-digit decimal representations. -/
theorem natDigits_small (n : Nat) (h : n < 10) : natDigits n = [digitChar n] := by
  rw [natDigits]
  rw [dif_pos h]

/-- `strip` is idempotent. -/
theorem pyStrip_idem (s : PyStr) : pyStrip (pyStrip s) = pyStrip s := by
  have hdw : (s.dropWhile isPyWs).dropWhile isPyWs = s.dropWhile isPyWs :=
    List.dropWhile_idempotent _ _
  have hpre : List.rdropWhile isPyWs (s.dropWhile isPyWs) <+: s.dropWhile isPyWs :=
    List.rdropWhile_prefix _ _
  have hdt : (List.rdropWhile isPyWs (s.dropWhile isPyWs)).dropWhile isPyWs =
      List.rdropWhile isPyWs (s.dropWhile isPyWs) := by
    cases ht : List.rdropWhile isPyWs (s.dropWhile isPyWs) with
    | nil => rfl
    | cons c ts =>
      rw [ht] at hpre
      obtain ⟨u, hu⟩ := hpre
      have hswap : s.dropWhile isPyWs = c :: (ts ++ u) := by
        rw [← hu]
        simp
      have h1 := List.dropWhile_eq_self_iff.mp hdw
      rw [hswap] at h1
      have h0 : ¬ isPyWs c = true := by simpa using h1 (by simp)
      rw [List.dropWhile_cons, if_neg h0]
  show List.rdropWhile isPyWs
      ((List.rdropWhile isPyWs (s.dropWhile isPyWs)).dropWhile isPyWs) =
    List.rdropWhile isPyWs (s.dropWhile isPyWs)
  rw [hdt]
  exact List.rdropWhile_idempotent _ _

/-- Concrete page URNs for the single-character Roman values. -/
theorem generate_page_urn_small :
    generate_page_urn 1 ("roman".toList) = "page:roman:1".toList ∧
    generate_page_urn 5 ("roman".toList) = "page:roman:5".toList ∧
    generate_page_urn 10 ("roman".toList) = "page:roman:10".toList := by
  refine ⟨?_, ?_, ?_⟩
  · unfold generate_page_urn intRepr
    rw [if_neg (by omega : ¬ (1 : Int) < 0)]
    rw [show Int.natAbs 1 = 1 from rfl, natDigits_small 1 (by omega)]
    decide
  · unfold generate_page_urn intRepr
    rw [if_neg (by omega : ¬ (5 : Int) < 0)]
    rw [show Int.natAbs 5 = 5 from rfl, natDigits_small 5 (by omega)]
    decide
  · unfold generate_page_urn intRepr
    rw [if_neg (by omega : ¬ (10 : Int) < 0)]
    rw [show Int.natAbs 10 = 10 from rfl, natDigits]
    rw [dif_neg (by omega : ¬ (10 : Nat) < 10)]
    rw [show (10 : Nat) / 10 = 1 by omega, show (10 : Nat) % 10 = 0 by omega,
      natDigits_small 1 (by omega)]
    decide

/-- C6: a page-reference match whose captured token is a single ambiguous
character (c, d, l or m) produces no `SemanticReference`, while a match
whose token is i, v or x is accepted and yields a reference with the
corresponding roman page URN (i=1, v=5, x=10). -/
theorem miner_single_char_tokens (ctx : MineCtx) (g0 : PyStr)
    (h0 : 0 ≤ ctx.page0)
    (hctx : pyStrip ctx.sentText ≠ [])
    (hx : (getMatchBbox ctx g0).1 < (getMatchBbox ctx g0).2.2.1)
    (hy : (getMatchBbox ctx g0).2.1 < (getMatchBbox ctx g0).2.2.2) :
    processMatch ctx g0 ("c".toList) = .ok none ∧
    processMatch ctx g0 ("d".toList) = .ok none ∧
    processMatch ctx g0 ("l".toList) = .ok none ∧
    processMatch ctx g0 ("m".toList) = .ok none ∧
    processMatch ctx g0 ("i".toList) =
      .ok (some ⟨ctx.page0 + 1, "page:roman:1".toList, pyStrip ctx.sentText,
                 getMatchBbox ctx g0, none, none, 0⟩) ∧
    processMatch ctx g0 ("v".toList) =
      .ok (some ⟨ctx.page0 + 1, "page:roman:5".toList, pyStrip ctx.sentText,
                 getMatchBbox ctx g0, none, none, 0⟩) ∧
    processMatch ctx g0 ("x".toList) =
      .ok (some ⟨ctx.page0 + 1, "page:roman:10".toList, pyStrip ctx.sentText,
                 getMatchBbox ctx g0, none, none, 0⟩) := by
  have hempty : ¬ ((pyStrip (pyStrip ctx.sentText)).isEmpty = true) := by
    rw [pyStrip_idem]
    simpa [List.isEmpty_iff] using hctx
  have hbox : ¬ ((getMatchBbox ctx g0).1 ≥ (getMatchBbox ctx g0).2.2.1 ∨
      (getMatchBbox ctx g0).2.1 ≥ (getMatchBbox ctx g0).2.2.2) :=
    not_or.mpr ⟨not_le.mpr hx, not_le.mpr hy⟩
  have hpage : ¬ (ctx.page0 + 1 < 1) := by omega
  refine ⟨rfl, rfl, rfl, rfl, ?_, ?_, ?_⟩
  · show (mkSemanticReference (ctx.page0 + 1) (generate_page_urn 1 ("roman".toList))
        (pyStrip ctx.sentText) (getMatchBbox ctx g0) none none 0).map some = _
    rw [generate_page_urn_small.1]
    simp only [mkSemanticReference, if_neg hpage,
      if_neg (by decide : ¬ ((!(anchorMatch ("page:roman:1".toList))) = true)),
      if_neg hempty, if_neg hbox]
    rfl
  · show (mkSemanticReference (ctx.page0 + 1) (generate_page_urn 5 ("roman".toList))
        (pyStrip ctx.sentText) (getMatchBbox ctx g0) none none 0).map some = _
    rw [generate_page_urn_small.2.1]
    simp only [mkSemanticReference, if_neg hpage,
      if_neg (by decide : ¬ ((!(anchorMatch ("page:roman:5".toList))) = true)),
      if_neg hempty, if_neg hbox]
    rfl
  · show (mkSemanticReference (ctx.page0 + 1) (generate_page_urn 10 ("roman".toList))
        (pyStrip ctx.sentText) (getMatchBbox ctx g0) none none 0).map some = _
    rw [generate_page_urn_small.2.2]
    simp only [mkSemanticReference, if_neg hpage,
      if_neg (by decide : ¬ ((!(anchorMatch ("page:roman:10".toList))) = true)),
      if_neg hempty, if_neg hbox]
    rfl

/-- Witness for C6: a concrete mining context on page 1 with the fallback
sentence box. -/
theorem miner_single_char_tokens_witness :
    processMatch ⟨0, "see page i".toList, ((0 : ℚ), (0 : ℚ), (5 : ℚ), (1 : ℚ)),
        fun _ => []⟩ ("page i".toList) ("c".toList) = .ok none ∧
    processMatch ⟨0, "see page i".toList, ((0 : ℚ), (0 : ℚ), (5 : ℚ), (1 : ℚ)),
        fun _ => []⟩ ("page i".toList) ("d".toList) = .ok none ∧
    processMatch ⟨0, "see page i".toList, ((0 : ℚ), (0 : ℚ), (5 : ℚ), (1 : ℚ)),
        fun _ => []⟩ ("page i".toList) ("l".toList) = .ok none ∧
    processMatch ⟨0, "see page i".toList, ((0 : ℚ), (0 : ℚ), (5 : ℚ), (1 : ℚ)),
        fun _ => []⟩ ("page i".toList) ("m".toList) = .ok none ∧
    processMatch ⟨0, "see page i".toList, ((0 : ℚ), (0 : ℚ), (5 : ℚ), (1 : ℚ)),
        fun _ => []⟩ ("page i".toList) ("i".toList) =
      .ok (some ⟨(0 : Int) + 1, "page:roman:1".toList,
                 pyStrip ("see page i".toList),
                 getMatchBbox ⟨0, "see page i".toList,
                   ((0 : ℚ), (0 : ℚ), (5 : ℚ), (1 : ℚ)), fun _ => []⟩
                   ("page i".toList), none, none, 0⟩) ∧
    processMatch ⟨0, "see page i".toList, ((0 : ℚ), (0 : ℚ), (5 : ℚ), (1 : ℚ)),
        fun _ => []⟩ ("page i".toList) ("v".toList) =
      .ok (some ⟨(0 : Int) + 1, "page:roman:5".toList,
                 pyStrip ("see page i".toList),
                 getMatchBbox ⟨0, "see page i".toList,
                   ((0 : ℚ), (0 : ℚ), (5 : ℚ), (1 : ℚ)), fun _ => []⟩
                   ("page i".toList), none, none, 0⟩) ∧
    processMatch ⟨0, "see page i".toList, ((0 : ℚ), (0 : ℚ), (5 : ℚ), (1 : ℚ)),
        fun _ => []⟩ ("page i".toList) ("x".toList) =
      .ok (some ⟨(0 : Int) + 1, "page:roman:10".toList,
                 pyStrip ("see page i".toList),
                 getMatchBbox ⟨0, "see page i".toList,
                   ((0 : ℚ), (0 : ℚ), (5 : ℚ), (1 : ℚ)), fun _ => []⟩
                   ("page i".toList), none, none, 0⟩) :=
  miner_single_char_tokens
    ⟨0, "see page i".toList, ((0 : ℚ), (0 : ℚ), (5 : ℚ), (1 : ℚ)), fun _ => []⟩
    ("page i".toList) (by decide) (by decide) (by decide) (by decide)
